import Mathlib

/-!
Verification development for the github-activity-monitor repository.

The JavaScript source is shallowly embedded: JS `Map` objects become
association lists that preserve insertion order (a `Map.set` on an existing
key keeps its position; `delete` removes it; iteration follows list order),
strings become Lean `String`, fallible operations return sum types, and the
asynchronous retry / flush loops become explicit recursive functions over
oracles describing the outcome of each remote call.
-/

namespace ActivityMonitor

/-! ### JS `Map` as an insertion-ordered association list -/

/-- Does the map hold key `k`? (`Map.has`). -/
def mapHasKey {β : Type} (m : List (String × β)) (k : String) : Bool :=
  m.any (fun e => e.1 == k)

/-- JS `Map.get`: value at `k`, if present. -/
def mapGet {β : Type} (m : List (String × β)) (k : String) : Option β :=
  (m.find? (fun e => e.1 == k)).map (fun e => e.2)

/-- JS `Map.set`: replace in place when the key exists (keeping its insertion
position, as JS `Map` does), otherwise append at the end. -/
def mapSet {β : Type} (m : List (String × β)) (k : String) (v : β) :
    List (String × β) :=
  if mapHasKey m k then m.map (fun e => if e.1 == k then (k, v) else e)
  else m ++ [(k, v)]

/-- JS `Map.delete`. -/
def mapDelete {β : Type} (m : List (String × β)) (k : String) :
    List (String × β) :=
  m.filter (fun e => !(e.1 == k))

/-- The keys in iteration order (`Map.keys`). -/
def mapKeys {β : Type} (m : List (String × β)) : List String :=
  m.map Prod.fst

/-- A map built through `Map.set`/`Map.delete` has pairwise distinct keys. -/
abbrev NodupKeys {β : Type} (m : List (String × β)) : Prop :=
  (mapKeys m).Nodup

/-! ### ContentCache (`ActivityTracker.managePreviousContent`) -/

/-- The eviction step of `managePreviousContent`: when
`this.previousContent.size >= this.maxCachedFiles`, delete the first key in
iteration order (`this.previousContent.keys().next().value`). -/
def evictIfFull (maxCachedFiles : Nat) (cache : List (String × String)) :
    List (String × String) :=
  if maxCachedFiles ≤ cache.length then
    match cache.head? with
    | some e => mapDelete cache e.1
    | none => cache
  else cache

/-- The method `ActivityTracker.managePreviousContent(fileName, content)`:
evict when at capacity, then `set` the new snapshot. -/
def managePreviousContent (maxCachedFiles : Nat)
    (cache : List (String × String)) (fileName content : String) :
    List (String × String) :=
  mapSet (evictIfFull maxCachedFiles cache) fileName content

/-- Insert a sequence of (fileName, content) pairs one by one. -/
def insertAll (maxCachedFiles : Nat) (cache : List (String × String))
    (l : List (String × String)) : List (String × String) :=
  l.foldl (fun c kv => managePreviousContent maxCachedFiles c kv.1 kv.2) cache

/-! ### ChangeDetector (`detectFunctionChanges`, `getLineChanges`) -/

/-- JS `\w` character class. -/
def isWordChar (c : Char) : Bool :=
  ('a' ≤ c && c ≤ 'z') || ('A' ≤ c && c ≤ 'Z') || ('0' ≤ c && c ≤ '9') || c == '_'

/-- JS `\s` character class (ASCII part). -/
def isSpaceChar (c : Char) : Bool :=
  c == ' ' || c == '\t' || c == '\n' || c == '\r' ||
    c == Char.ofNat 11 || c == Char.ofNat 12

/-- Match the regex `function\s+(\w+)\s*\(` at the start of `cs`; on success
return the captured name and the remaining characters after the match.
Since `\s`, `\w` and `(` are pairwise disjoint character classes, the greedy
maximal-munch reading used here coincides with the backtracking semantics. -/
def matchFunctionAt (cs : List Char) : Option (List Char × List Char) :=
  if cs.take 8 = "function".toList then
    let afterKw := cs.drop 8
    let ws := afterKw.takeWhile isSpaceChar
    if ws.isEmpty then none
    else
      let afterWs := afterKw.dropWhile isSpaceChar
      let name := afterWs.takeWhile isWordChar
      if name.isEmpty then none
      else
        match (afterWs.dropWhile isWordChar).dropWhile isSpaceChar with
        | '(' :: rest => some (name, rest)
        | _ => none
  else none

/-- Left-to-right non-overlapping scan for all matches (`String.matchAll` with
the `g` flag): after a match, continue from its end; otherwise advance one
character.  Each step consumes at least one character, so fuel equal to the
string length is enough to scan it completely. -/
def scanFunctionNames : Nat → List Char → List String
  | 0, _ => []
  | _, [] => []
  | fuel + 1, c :: cs =>
    match matchFunctionAt (c :: cs) with
    | some (name, rest) => String.mk name :: scanFunctionNames fuel rest
    | none => scanFunctionNames fuel cs

/-- All function names matched by `/function\s+(\w+)\s*\(/g` in `s`. -/
def findFunctionNames (s : String) : List String :=
  scanFunctionNames s.toList.length s.toList

structure FunctionChanges where
  added : List String
  modified : List String
  removed : List String
deriving DecidableEq

/-- The method `ActivityTracker.detectFunctionChanges(oldContent, newContent)`. -/
def detectFunctionChanges (oldContent newContent : String) : FunctionChanges :=
  let oldFunctions := findFunctionNames oldContent
  let newFunctions := findFunctionNames newContent
  { added := newFunctions.filter (fun f => !oldFunctions.contains f)
    modified := []
    removed := oldFunctions.filter (fun f => !newFunctions.contains f) }

/-- JS `content.split('\n')`. -/
def splitOnNewline : List Char → List (List Char)
  | [] => [[]]
  | c :: cs =>
    if c = '\n' then [] :: splitOnNewline cs
    else
      match splitOnNewline cs with
      | l :: ls => (c :: l) :: ls
      | [] => [[c]]

structure LineChanges where
  addedLines : Int
  modifiedLines : Nat
  totalLines : Nat
deriving DecidableEq

/-- The method `ActivityTracker.getLineChanges(oldContent, newContent)`. -/
def getLineChanges (oldContent newContent : String) : LineChanges :=
  let oldLines := splitOnNewline oldContent.toList
  let newLines := splitOnNewline newContent.toList
  { addedLines := (newLines.length : Int) - (oldLines.length : Int)
    modifiedLines := ((newLines.length : Int) - (oldLines.length : Int)).natAbs
    totalLines := newLines.length }

/-! ### ActivityLogger retry loop (`ActivityTracker.logFileActivity`)

The fallible body of each loop iteration (change capture plus
`gitManager.logActivity`) is abstracted into an oracle `submit` giving the
outcome of the attempt numbered `attempt + 1`.  The result records the
user-visible notifications, the back-off delays awaited between attempts,
and how many times the record was successfully submitted. -/

structure RetryOutcome where
  succeeded : Bool
  failureNotifications : Nat
  delays : List Nat
  submissions : Nat
  tries : Nat
deriving DecidableEq

/-- Await one back-off delay, then continue: prefix the delay to the record
of the remaining iterations and count this attempt. -/
def withDelay (d : Nat) (r : RetryOutcome) : RetryOutcome :=
  { r with delays := d :: r.delays, tries := r.tries + 1 }

/-- The `while (attempt < this.retryAttempts)` loop of `logFileActivity`,
entered with counter value `attempt`: try the submission; on success return
(one successful submission, no notification); on failure increment the
counter, and either show the single error message when the counter reached
`retryAttempts`, or wait `retryDelay * attempt` and iterate. -/
def logFileActivityLoop (retryAttempts retryDelay : Nat) (submit : Nat → Bool)
    (attempt : Nat) : RetryOutcome :=
  if h : attempt < retryAttempts then
    if submit (attempt + 1) then
      { succeeded := true, failureNotifications := 0, delays := [],
        submissions := 1, tries := 1 }
    else if attempt + 1 = retryAttempts then
      { succeeded := false, failureNotifications := 1, delays := [],
        submissions := 0, tries := 1 }
    else
      withDelay (retryDelay * (attempt + 1))
        (logFileActivityLoop retryAttempts retryDelay submit (attempt + 1))
  else
    { succeeded := false, failureNotifications := 0, delays := [],
      submissions := 0, tries := 0 }
termination_by retryAttempts - attempt
decreasing_by omega

/-- The method `logFileActivity`: a no-op (`none`) unless tracking is enabled, otherwise
the retry loop starting at counter 0. -/
def logFileActivity (isTracking : Bool) (retryAttempts retryDelay : Nat)
    (submit : Nat → Bool) : Option RetryOutcome :=
  if isTracking then some (logFileActivityLoop retryAttempts retryDelay submit 0)
  else none

/-! ### PeriodicSupervisor (`Scheduler`, src/unnamed/part_000) -/

structure Scheduler where
  intervalSet : Bool
  isRunning : Bool
  retryCount : Nat
  maxRetries : Nat
  fatalRaised : Bool
deriving DecidableEq

/-- Freshly constructed `Scheduler`. -/
def Scheduler.init (maxRetries : Nat) : Scheduler :=
  { intervalSet := false, isRunning := false, retryCount := 0,
    maxRetries := maxRetries, fatalRaised := false }

/-- The method `Scheduler.stop()`: clear the interval, leave `Running`, reset counter. -/
def Scheduler.stop (s : Scheduler) : Scheduler :=
  { s with intervalSet := false, isRunning := false, retryCount := 0 }

/-- The method `Scheduler.handleError()`: bump counter; at `maxRetries`, stop and throw. -/
def Scheduler.handleError (s : Scheduler) : Scheduler :=
  let s1 : Scheduler := { s with retryCount := s.retryCount + 1 }
  if s1.maxRetries ≤ s1.retryCount then { s1.stop with fatalRaised := true }
  else s1

/-- The method `Scheduler.startPeriodicTracking()`. -/
def Scheduler.startPeriodicTracking (s : Scheduler) : Scheduler :=
  if s.isRunning then s else { s with isRunning := true, intervalSet := true }

/-- External events: an explicit `start` call, and the interval callback
firing with a succeeding or failing `saveCurrentActivity`.  A tick can only
fire while the interval timer is set. -/
inductive SchedulerEvent
  | start
  | tickSuccess
  | tickFail
deriving DecidableEq

def Scheduler.step (s : Scheduler) : SchedulerEvent → Scheduler
  | .start => s.startPeriodicTracking
  | .tickSuccess => if s.intervalSet then { s with retryCount := 0 } else s
  | .tickFail => if s.intervalSet then s.handleError else s

def Scheduler.run (s : Scheduler) (events : List SchedulerEvent) : Scheduler :=
  events.foldl Scheduler.step s

/-! ### ActivityQueue flush (`GitManager.processActivityQueue`)

Activity records are abstract (`α`); the remote store is an association list
from file path to the JSON array the file holds.  The outcomes of the remote
reads and writes performed during one flush tick are given by oracles: `read`
bundles `githubApi.getFileContent` together with `JSON.parse` (any thrown
error is caught by the inner `catch`, leaving `logs = []`), and `writeOk`
tells whether `githubApi.updateFile` succeeds for a path. -/

inductive ReadOutcome (α : Type) where
  | success (logs : List α)
  | absent
  | failure

/-- The `logs` array `processActivityQueue` starts from: the parsed existing
content on a successful read, `[]` when the file is absent (`getFileContent`
returned `null`), and `[]` when the read or the parse threw (the inner
`catch` only logs). -/
def logsFromRead {α : Type} (r : ReadOutcome α) : List α :=
  match r with
  | .success l => l
  | .absent => []
  | .failure => []

/-- The path `projects/` ++ project ++ `/activity-log.json`. -/
def logFilePath (project : String) : String :=
  "projects/" ++ project ++ "/activity-log.json"

/-- First half of `processActivityQueue`: walk the queue map in iteration
order; skip projects with empty buffers; otherwise read the existing log
(read error, parse error and 404 all leave `logs = []` except a successful
parse), push the buffered activities, record the pending update, and reset
the project's buffer to `[]`.  Returns (updates in order, updated queue). -/
def collectUpdates {α : Type} (read : String → ReadOutcome α) :
    List (String × List α) → List (String × List α) × List (String × List α)
  | [] => ([], [])
  | (project, activities) :: rest =>
    if activities.isEmpty then
      let p := collectUpdates read rest
      (p.1, (project, activities) :: p.2)
    else
      let p := collectUpdates read rest
      ((logFilePath project, logsFromRead (read (logFilePath project)) ++ activities) :: p.1,
        (project, ([] : List α)) :: p.2)

/-- Second half: perform the collected writes sequentially; a failing
`updateFile` throws, aborting the remaining writes (outer `catch`). -/
def executeUpdates {α : Type} (writeOk : String → Bool)
    (remote : List (String × List α)) :
    List (String × List α) → List (String × List α) × Bool
  | [] => (remote, true)
  | (path, content) :: rest =>
    if writeOk path then executeUpdates writeOk (mapSet remote path content) rest
    else (remote, false)

structure FlushResult (α : Type) where
  queue : List (String × List α)
  remote : List (String × List α)
  completed : Bool

/-- One `processActivityQueue` tick.  `completed = false` means a write error
reached the outer `catch` (which only logs it). -/
def processActivityQueue {α : Type} (read : String → ReadOutcome α)
    (writeOk : String → Bool) (isProcessingQueue : Bool)
    (queue : List (String × List α)) (remote : List (String × List α)) :
    FlushResult α :=
  if isProcessingQueue || queue.length == 0 then
    { queue := queue, remote := remote, completed := true }
  else
    let p := collectUpdates read queue
    let e := executeUpdates writeOk remote p.1
    { queue := p.2, remote := e.1, completed := e.2 }

/-! ### RemoteSyncClient (`GithubAPI.updateFile`, `GithubAPI.getFileContent`) -/

/-- Outcome of `octokit.repos.getContent` for a path. -/
inductive GetContentOutcome where
  | file (sha : String) (content : String)
  | directory
  | notFound
  | otherError
deriving DecidableEq

/-- What `updateFile` does: either it throws, or it issues exactly one
`createOrUpdateFileContents` call carrying the given `sha` token. -/
inductive UpdateFileResult where
  | wrote (sha : Option String)
  | failed
deriving DecidableEq

/-- The method `GithubAPI.updateFile(repo, path, content, message)`: check the repo,
read the current file to learn its `sha` (a 404 leaves `sha` undefined and
the file is created; any other read error rethrows), then write passing that
`sha`. -/
def updateFile (repoExists : Bool) (getContent : GetContentOutcome) :
    UpdateFileResult :=
  if !repoExists then .failed
  else
    match getContent with
    | .file sha _ => .wrote (some sha)
    | .directory => .wrote none
    | .notFound => .wrote none
    | .otherError => .failed

/-- The method `GithubAPI.getFileContent(repo, path)`: decoded content on success,
`none` on 404, error otherwise (including a path that is a directory). -/
def getFileContent (getContent : GetContentOutcome) :
    Except Unit (Option String) :=
  match getContent with
  | .file _ content => .ok (some content)
  | .directory => .error ()
  | .notFound => .ok none
  | .otherError => .error ()

/-- How the inner `try`/`catch` of `processActivityQueue` turns the pair
(`getFileContent` result, `JSON.parse`) into the starting `logs` array:
a thrown read error and an unparsable content both land in the `catch`
(modelled `failure`, giving `logs = []`), a `null` return means 404. -/
def readOutcomeOfContent {α : Type} (parse : String → Option (List α))
    (r : Except Unit (Option String)) : ReadOutcome α :=
  match r with
  | .error _ => .failure
  | .ok none => .absent
  | .ok (some s) =>
    match parse s with
    | some l => .success l
    | none => .failure

/-! ### Basic lemmas about the `Map` embedding -/

theorem mapHasKey_iff {β : Type} (m : List (String × β)) (k : String) :
    mapHasKey m k = true ↔ k ∈ mapKeys m := by
  simp [mapHasKey, List.any_eq_true, beq_iff_eq, mapKeys, List.mem_map]

theorem mapHasKey_eq_false_iff {β : Type} (m : List (String × β)) (k : String) :
    mapHasKey m k = false ↔ ¬ k ∈ mapKeys m := by
  rw [← mapHasKey_iff]
  cases mapHasKey m k <;> simp

theorem mapGet_cons_of_eq {β : Type} {k : String} (e : String × β)
    (t : List (String × β)) (h : e.1 = k) : mapGet (e :: t) k = some e.2 := by
  simp only [mapGet]
  rw [List.find?_cons_of_pos _ (by simp [h])]
  rfl

theorem mapGet_cons_of_ne {β : Type} {k : String} (e : String × β)
    (t : List (String × β)) (h : ¬ e.1 = k) : mapGet (e :: t) k = mapGet t k := by
  simp only [mapGet]
  rw [List.find?_cons_of_neg _ (by simp [h])]

theorem mapGet_eq_none_iff {β : Type} (m : List (String × β)) (k : String) :
    mapGet m k = none ↔ ¬ k ∈ mapKeys m := by
  induction m with
  | nil => simp [mapGet, mapKeys]
  | cons e t ih =>
    by_cases hek : e.1 = k
    · rw [mapGet_cons_of_eq e t hek]
      simp [mapKeys, hek]
    · rw [mapGet_cons_of_ne e t hek, ih]
      simp only [mapKeys, List.map_cons, List.mem_cons]
      constructor
      · intro h hmem
        rcases hmem with hmem | hmem
        · exact hek hmem.symm
        · exact h hmem
      · intro h hmem
        exact h (Or.inr hmem)

theorem mapSet_of_not_hasKey {β : Type} {m : List (String × β)} {k : String}
    (h : mapHasKey m k = false) (v : β) : mapSet m k v = m ++ [(k, v)] := by
  simp [mapSet, h]

theorem fst_setEntry {β : Type} (k : String) (v : β) (e : String × β) :
    (if e.1 == k then (k, v) else e).1 = e.1 := by
  by_cases h : e.1 = k
  · simp [h]
  · simp [h]

theorem mapKeys_setAll {β : Type} (m : List (String × β)) (k : String) (v : β) :
    mapKeys (m.map (fun e => if e.1 == k then (k, v) else e)) = mapKeys m := by
  induction m with
  | nil => rfl
  | cons e t ih =>
    simp only [mapKeys, List.map_cons] at ih ⊢
    rw [fst_setEntry, ih]

theorem mapKeys_mapSet_of_hasKey {β : Type} {m : List (String × β)} {k : String}
    (h : mapHasKey m k = true) (v : β) : mapKeys (mapSet m k v) = mapKeys m := by
  rw [mapSet, if_pos h]
  exact mapKeys_setAll m k v

theorem mapSet_length_of_hasKey {β : Type} {m : List (String × β)} {k : String}
    (h : mapHasKey m k = true) (v : β) : (mapSet m k v).length = m.length := by
  rw [mapSet, if_pos h, List.length_map]

theorem mapSet_length_le {β : Type} (m : List (String × β)) (k : String) (v : β) :
    (mapSet m k v).length ≤ m.length + 1 := by
  cases h : mapHasKey m k
  · rw [mapSet_of_not_hasKey h]
    simp
  · rw [mapSet_length_of_hasKey h]
    omega

theorem mapGet_setAll_self {β : Type} {m : List (String × β)} {k : String}
    (h : mapHasKey m k = true) (v : β) :
    mapGet (m.map (fun e => if e.1 == k then (k, v) else e)) k = some v := by
  induction m with
  | nil => simp [mapHasKey] at h
  | cons e t ih =>
    rw [List.map_cons]
    by_cases hek : e.1 = k
    · rw [show (if e.1 == k then (k, v) else e) = (k, v) by simp [hek]]
      exact mapGet_cons_of_eq (k, v) _ rfl
    · rw [show (if e.1 == k then (k, v) else e) = e by simp [hek]]
      rw [mapGet_cons_of_ne e _ hek]
      exact ih (by simpa [mapHasKey, List.any_cons, hek] using h)

theorem mapGet_append_single {β : Type} {m : List (String × β)} {k : String}
    (h : mapHasKey m k = false) (v : β) : mapGet (m ++ [(k, v)]) k = some v := by
  induction m with
  | nil => exact mapGet_cons_of_eq (k, v) [] rfl
  | cons e t ih =>
    have hek : ¬ e.1 = k := by
      intro hek
      simp [mapHasKey, List.any_cons, hek] at h
    rw [List.cons_append, mapGet_cons_of_ne e _ hek]
    exact ih (by simpa [mapHasKey, List.any_cons, hek] using h)

theorem mapGet_mapSet_self {β : Type} (m : List (String × β)) (k : String) (v : β) :
    mapGet (mapSet m k v) k = some v := by
  cases h : mapHasKey m k
  · rw [mapSet_of_not_hasKey h]
    exact mapGet_append_single h v
  · rw [mapSet, if_pos h]
    exact mapGet_setAll_self h v

theorem mapGet_append_single_ne {β : Type} (m : List (String × β)) {k k' : String}
    (hne : k' ≠ k) (v : β) : mapGet (m ++ [(k, v)]) k' = mapGet m k' := by
  induction m with
  | nil =>
    simp only [List.nil_append]
    rw [mapGet_cons_of_ne (k, v) [] (Ne.symm hne)]
  | cons e t ih =>
    by_cases hek : e.1 = k'
    · rw [List.cons_append, mapGet_cons_of_eq e _ hek, mapGet_cons_of_eq e t hek]
    · rw [List.cons_append, mapGet_cons_of_ne e _ hek, mapGet_cons_of_ne e t hek]
      exact ih

theorem mapGet_setAll_ne {β : Type} (m : List (String × β)) {k k' : String}
    (hne : k' ≠ k) (v : β) :
    mapGet (m.map (fun e => if e.1 == k then (k, v) else e)) k' = mapGet m k' := by
  induction m with
  | nil => rfl
  | cons e t ih =>
    rw [List.map_cons]
    by_cases hek : e.1 = k
    · have he' : ¬ e.1 = k' := by
        rw [hek]
        exact Ne.symm hne
      rw [show (if e.1 == k then (k, v) else e) = (k, v) by simp [hek]]
      rw [mapGet_cons_of_ne (k, v) _ (Ne.symm hne), mapGet_cons_of_ne e t he']
      exact ih
    · rw [show (if e.1 == k then (k, v) else e) = e by simp [hek]]
      by_cases hek' : e.1 = k'
      · rw [mapGet_cons_of_eq e _ hek', mapGet_cons_of_eq e t hek']
      · rw [mapGet_cons_of_ne e _ hek', mapGet_cons_of_ne e t hek']
        exact ih

theorem mapGet_mapSet_ne {β : Type} (m : List (String × β)) {k k' : String}
    (hne : k' ≠ k) (v : β) : mapGet (mapSet m k v) k' = mapGet m k' := by
  cases h : mapHasKey m k
  · rw [mapSet_of_not_hasKey h]
    exact mapGet_append_single_ne m hne v
  · rw [mapSet, if_pos h]
    exact mapGet_setAll_ne m hne v

theorem nodupKeys_mapDelete {β : Type} {m : List (String × β)}
    (h : NodupKeys m) (k : String) : NodupKeys (mapDelete m k) :=
  List.Nodup.sublist (List.Sublist.map Prod.fst (List.filter_sublist m)) h

theorem nodupKeys_mapSet {β : Type} {m : List (String × β)}
    (h : NodupKeys m) (k : String) (v : β) : NodupKeys (mapSet m k v) := by
  cases hk : mapHasKey m k
  · rw [mapSet_of_not_hasKey hk]
    have hnotin : ¬ k ∈ mapKeys m := (mapHasKey_eq_false_iff m k).mp hk
    simp only [NodupKeys, mapKeys, List.map_append, List.map_cons,
      List.map_nil] at h ⊢
    rw [List.nodup_append]
    refine ⟨h, List.nodup_singleton k, ?_⟩
    intro a ha hk1
    rw [List.mem_singleton] at hk1
    subst hk1
    exact hnotin (by simpa [mapKeys] using ha)
  · rw [NodupKeys, mapKeys_mapSet_of_hasKey hk]
    exact h

theorem mapDelete_head {β : Type} (e : String × β) (t : List (String × β))
    (hnd : NodupKeys (e :: t)) : mapDelete (e :: t) e.1 = t := by
  have hnotin : ¬ e.1 ∈ mapKeys t := by
    have h := hnd
    simp only [NodupKeys, mapKeys, List.map_cons, List.nodup_cons] at h
    exact h.1
  simp only [mapDelete, List.filter_cons]
  rw [show (!(e.1 == e.1)) = false by simp]
  simp only [Bool.false_eq_true, if_false]
  apply List.filter_eq_self.mpr
  intro x hx
  have hne : ¬ x.1 = e.1 :=
    fun hx1 => hnotin (hx1 ▸ List.mem_map_of_mem Prod.fst hx)
  simp [hne]

/-! ### ContentCache lemmas and claims C3, C10 -/

theorem managePreviousContent_length (max : Nat) (hmax : 1 ≤ max)
    {cache : List (String × String)} (hnd : NodupKeys cache)
    (hlen : cache.length ≤ max) (f c : String) :
    (managePreviousContent max cache f c).length ≤ max := by
  unfold managePreviousContent evictIfFull
  by_cases hfull : max ≤ cache.length
  · rw [if_pos hfull]
    cases cache with
    | nil =>
      simp only [List.head?]
      rw [mapSet_of_not_hasKey
        (show mapHasKey ([] : List (String × String)) f = false from rfl) c]
      simp only [List.nil_append, List.length_cons, List.length_nil]
      omega
    | cons e t =>
      simp only [List.head?]
      rw [mapDelete_head e t hnd]
      have h1 := mapSet_length_le t f c
      have h2 : t.length + 1 ≤ max := by simpa using hlen
      omega
  · rw [if_neg hfull]
    have := mapSet_length_le cache f c
    omega

theorem insertAll_append (max : Nat) (cache a b : List (String × String)) :
    insertAll max cache (a ++ b) = insertAll max (insertAll max cache a) b := by
  simp [insertAll]

/-- Inserting fresh, pairwise distinct snapshots while there is room simply
appends them in order. -/
theorem insertAll_fresh (max : Nat) (l : List (String × String)) :
    ∀ cache : List (String × String),
      NodupKeys (cache ++ l) →
      cache.length + l.length ≤ max →
      insertAll max cache l = cache ++ l := by
  induction l with
  | nil =>
    intro cache _ _
    simp [insertAll]
  | cons kv rest ih =>
    intro cache hnd hlen
    have hlt : ¬ max ≤ cache.length := by
      simp only [List.length_cons] at hlen
      omega
    have hfresh : ¬ kv.1 ∈ mapKeys cache := by
      simp only [NodupKeys, mapKeys, List.map_append, List.map_cons,
        List.nodup_append, List.nodup_cons] at hnd
      intro hmem
      exact hnd.2.2 hmem (List.mem_cons_self _ _)
    have hstep : managePreviousContent max cache kv.1 kv.2 = cache ++ [kv] := by
      unfold managePreviousContent evictIfFull
      rw [if_neg hlt]
      exact mapSet_of_not_hasKey ((mapHasKey_eq_false_iff _ _).mpr hfresh) kv.2
    have hcons : insertAll max cache (kv :: rest)
        = insertAll max (managePreviousContent max cache kv.1 kv.2) rest := rfl
    rw [hcons, hstep, ih (cache ++ [kv])]
    · simp
    · rw [List.append_assoc]
      exact hnd
    · simp only [List.length_append, List.length_cons, List.length_nil] at hlen ⊢
      omega

/-- Claim C3: the ContentCache never exceeds `maxCachedFiles` entries; starting
from empty, inserting `maxCachedFiles + 1` distinct file identities leaves
exactly the later identities, the first-inserted one being evicted and
absent; and re-writing an existing key does not change the key order (so it
does not refresh that key's eviction priority). -/
theorem C3_cache_bound_and_eviction (max : Nat) (hmax : 1 ≤ max) :
    (∀ (cache : List (String × String)) (f c : String),
        NodupKeys cache → cache.length ≤ max →
        (managePreviousContent max cache f c).length ≤ max)
    ∧ (∀ (k0 v0 klast vlast : String) (mid : List (String × String)),
        NodupKeys ((k0, v0) :: (mid ++ [(klast, vlast)])) →
        mid.length + 1 = max →
        insertAll max [] ((k0, v0) :: (mid ++ [(klast, vlast)]))
            = mid ++ [(klast, vlast)]
          ∧ mapGet (insertAll max [] ((k0, v0) :: (mid ++ [(klast, vlast)]))) k0
              = none
          ∧ ∀ kv ∈ mid ++ [(klast, vlast)],
              mapGet (insertAll max [] ((k0, v0) :: (mid ++ [(klast, vlast)])))
                  kv.1 ≠ none)
    ∧ (∀ (m : List (String × String)) (k v : String),
        mapHasKey m k = true → mapKeys (mapSet m k v) = mapKeys m) := by
  refine ⟨fun cache f c hnd hlen => managePreviousContent_length max hmax hnd hlen f c,
    ?_, fun m k v h => mapKeys_mapSet_of_hasKey h v⟩
  intro k0 v0 klast vlast mid hnd hlen
  have hL : (k0, v0) :: (mid ++ [(klast, vlast)])
      = ((k0, v0) :: mid) ++ [(klast, vlast)] := by simp
  have hndInit : NodupKeys ((k0, v0) :: mid) := by
    apply List.Nodup.sublist (List.Sublist.map Prod.fst ?_) hnd
    rw [hL]
    exact List.sublist_append_left _ _
  have hfill : insertAll max [] ((k0, v0) :: mid) = (k0, v0) :: mid := by
    apply insertAll_fresh
    · simpa using hndInit
    · simp only [List.length_nil, List.length_cons]
      omega
  have hndRest : (mapKeys mid ++ [klast]).Nodup := by
    have h := hnd
    simp only [NodupKeys, mapKeys, List.map_cons, List.map_append, List.map_nil,
      List.nodup_cons] at h
    exact h.2
  have hfreshLast : ¬ klast ∈ mapKeys mid := by
    rw [List.nodup_append] at hndRest
    intro hmem
    exact hndRest.2.2 hmem (List.mem_cons_self _ _)
  have hk0notin : ¬ k0 ∈ mapKeys (mid ++ [(klast, vlast)]) := by
    have h := hnd
    simp only [NodupKeys, mapKeys, List.map_cons, List.nodup_cons] at h
    intro hmem
    exact h.1 (by simpa [mapKeys] using hmem)
  have hmain : insertAll max [] ((k0, v0) :: (mid ++ [(klast, vlast)]))
      = mid ++ [(klast, vlast)] := by
    rw [hL, insertAll_append, hfill]
    have hstep : insertAll max ((k0, v0) :: mid) [(klast, vlast)]
        = managePreviousContent max ((k0, v0) :: mid) klast vlast := rfl
    rw [hstep]
    unfold managePreviousContent evictIfFull
    rw [if_pos (by simp only [List.length_cons]; omega)]
    simp only [List.head?]
    rw [mapDelete_head (k0, v0) mid hndInit]
    exact mapSet_of_not_hasKey ((mapHasKey_eq_false_iff _ _).mpr hfreshLast) vlast
  refine ⟨hmain, ?_, ?_⟩
  · rw [hmain]
    exact (mapGet_eq_none_iff _ _).mpr hk0notin
  · intro kv hkv heq
    rw [hmain] at heq
    exact (mapGet_eq_none_iff _ _).mp heq (List.mem_map_of_mem Prod.fst hkv)

theorem C3_witness :
    ((managePreviousContent 2 [("a", "x"), ("b", "y")] "c" "z").length ≤ 2)
    ∧ (insertAll 2 [] [("a", "1"), ("b", "2"), ("c", "3")]
          = [("b", "2"), ("c", "3")]
        ∧ mapGet (insertAll 2 [] [("a", "1"), ("b", "2"), ("c", "3")]) "a" = none
        ∧ ∀ kv ∈ [(("b" : String), ("2" : String)), ("c", "3")],
            mapGet (insertAll 2 [] [("a", "1"), ("b", "2"), ("c", "3")]) kv.1
              ≠ none)
    ∧ mapKeys (mapSet [("a", "x"), ("b", "y")] "a" "z")
        = mapKeys [("a", "x"), ("b", "y")] := by
  have h := C3_cache_bound_and_eviction 2 (by decide)
  exact ⟨h.1 [("a", "x"), ("b", "y")] "c" "z" (by decide) (by decide),
    h.2.1 "a" "1" "c" "3" [("b", "2")] (by decide) (by decide),
    h.2.2 [("a", "x"), ("b", "y")] "a" "z" (by decide)⟩

/-- Claim C10: at capacity, a capture for a file identity already in the cache
still evicts the oldest entry first and only then re-writes the key: the
oldest key's baseline is removed (when the updated key is not itself the
oldest), and the cache size then drops below capacity. -/
theorem C10_update_existing_key_at_capacity (max : Nat) (k0 v0 k v : String)
    (t : List (String × String)) (hnd : NodupKeys ((k0, v0) :: t))
    (hlen : t.length + 1 = max) (hmem : k ∈ mapKeys ((k0, v0) :: t)) :
    managePreviousContent max ((k0, v0) :: t) k v = mapSet t k v
    ∧ (¬ k = k0 →
        mapGet (managePreviousContent max ((k0, v0) :: t) k v) k0 = none
        ∧ (managePreviousContent max ((k0, v0) :: t) k v).length + 1 = max) := by
  have hstep : managePreviousContent max ((k0, v0) :: t) k v = mapSet t k v := by
    unfold managePreviousContent evictIfFull
    rw [if_pos (by simp only [List.length_cons]; omega)]
    simp only [List.head?]
    rw [mapDelete_head (k0, v0) t hnd]
  refine ⟨hstep, fun hne => ?_⟩
  have hkt : k ∈ mapKeys t := by
    simp only [mapKeys, List.map_cons, List.mem_cons] at hmem
    rcases hmem with hmem | hmem
    · exact absurd hmem hne
    · exact hmem
  have hk0t : ¬ k0 ∈ mapKeys t := by
    have h := hnd
    simp only [NodupKeys, mapKeys, List.map_cons, List.nodup_cons] at h
    exact fun hx => h.1 (by simpa [mapKeys] using hx)
  constructor
  · rw [hstep, mapGet_mapSet_ne t (fun h => hne h.symm) v]
    exact (mapGet_eq_none_iff _ _).mpr hk0t
  · rw [hstep, mapSet_length_of_hasKey ((mapHasKey_iff _ _).mpr hkt) v]
    exact hlen

theorem C10_witness :
    managePreviousContent 2 [("a", "x"), ("b", "y")] "b" "z"
        = mapSet [("b", "y")] "b" "z"
    ∧ (¬ "b" = "a" →
        mapGet (managePreviousContent 2 [("a", "x"), ("b", "y")] "b" "z") "a"
            = none
        ∧ (managePreviousContent 2 [("a", "x"), ("b", "y")] "b" "z").length + 1
            = 2) :=
  C10_update_existing_key_at_capacity 2 "a" "x" "b" "z" [("b", "y")]
    (by decide) (by decide) (by decide)

/-! ### ChangeDetector claims C5, C7 -/

theorem splitOnNewline_ne_nil (l : List Char) : splitOnNewline l ≠ [] := by
  cases l with
  | nil => simp [splitOnNewline]
  | cons c cs =>
    by_cases h : c = '\n'
    · simp [splitOnNewline, h]
    · simp only [splitOnNewline, if_neg h]
      cases hs : splitOnNewline cs with
      | nil => simp
      | cons a as => simp

theorem splitOnNewline_length (l : List Char) :
    (splitOnNewline l).length = l.count '\n' + 1 := by
  induction l with
  | nil => simp [splitOnNewline]
  | cons c cs ih =>
    by_cases h : c = '\n'
    · subst h
      simp [splitOnNewline, List.count_cons, ih]
    · have hcount : (c :: cs).count '\n' = cs.count '\n' := by
        simp [List.count_cons, h]
      simp only [splitOnNewline, if_neg h]
      cases hs : splitOnNewline cs with
      | nil => exact absurd hs (splitOnNewline_ne_nil cs)
      | cons a as =>
        rw [hs] at ih
        simp only [List.length_cons] at ih ⊢
        rw [hcount]
        exact ih

/-- Claim C5: `functionsAdded` is exactly the names matched by the
function-declaration pattern in the new content and not in the old,
`functionsRemoved` the converse, `functionsModified` is always empty, and on
the concrete pair from the spec the result is
`added=["b"], removed=[], lineDelta.added=1`. -/
theorem C5_function_change_detection :
    (∀ oldContent newContent : String,
        (detectFunctionChanges oldContent newContent).added
            = (findFunctionNames newContent).filter
                (fun f => !(findFunctionNames oldContent).contains f)
          ∧ (detectFunctionChanges oldContent newContent).removed
            = (findFunctionNames oldContent).filter
                (fun f => !(findFunctionNames newContent).contains f)
          ∧ (detectFunctionChanges oldContent newContent).modified = [])
    ∧ detectFunctionChanges "function a()\x7b\x7d"
          "function a()\x7b\x7d\nfunction b()\x7b\x7d"
        = { added := ["b"], modified := [], removed := [] }
    ∧ (getLineChanges "function a()\x7b\x7d"
          "function a()\x7b\x7d\nfunction b()\x7b\x7d").addedLines = 1 :=
  ⟨fun _ _ => ⟨rfl, rfl, rfl⟩, by decide, by decide⟩

/-- Claim C7: the line statistics satisfy
`added = newLineCount − oldLineCount`, `modified = |newLineCount − oldLineCount|`
(hence `modified = |added|` on all inputs) and `total = newLineCount`, where a
content's line count is the number of its newline-separated segments
(`count of newline characters + 1`). -/
theorem C7_line_statistics (oldContent newContent : String) :
    (getLineChanges oldContent newContent).addedLines
        = ((splitOnNewline newContent.toList).length : Int)
          - ((splitOnNewline oldContent.toList).length : Int)
    ∧ (getLineChanges oldContent newContent).modifiedLines
        = (((splitOnNewline newContent.toList).length : Int)
          - ((splitOnNewline oldContent.toList).length : Int)).natAbs
    ∧ (getLineChanges oldContent newContent).modifiedLines
        = (getLineChanges oldContent newContent).addedLines.natAbs
    ∧ (getLineChanges oldContent newContent).totalLines
        = (splitOnNewline newContent.toList).length
    ∧ (splitOnNewline newContent.toList).length
        = newContent.toList.count '\n' + 1 :=
  ⟨rfl, rfl, rfl, rfl, splitOnNewline_length newContent.toList⟩

/-! ### Retry-loop lemmas and claim C2 -/

theorem delayList_cons (d a n : Nat) :
    (List.range (n + 1)).map (fun i => d * (a + 1 + i))
      = d * (a + 1) :: (List.range n).map (fun i => d * (a + 1 + 1 + i)) := by
  rw [List.range_succ_eq_map, List.map_cons, List.map_map]
  refine congrArg₂ List.cons (by simp) ?_
  apply List.map_congr_left
  intro i _
  simp only [Function.comp, Nat.succ_eq_add_one]
  ring

/-- When every attempt from counter value `a` on fails, the loop performs all
remaining tries, emits exactly one failure notification, submits nothing, and
awaits the linear back-off delays in order. -/
theorem logFileActivityLoop_all_fail (R d : Nat) (submit : Nat → Bool) :
    ∀ n a, n = R - a → a < R →
      (∀ k, a ≤ k → k < R → submit (k + 1) = false) →
      logFileActivityLoop R d submit a
        = { succeeded := false, failureNotifications := 1,
            delays := (List.range (R - 1 - a)).map (fun i => d * (a + 1 + i)),
            submissions := 0, tries := R - a } := by
  intro n
  induction n with
  | zero =>
    intro a hn hlt _
    omega
  | succ m ih =>
    intro a hn hlt hfail
    rw [logFileActivityLoop, dif_pos hlt,
      if_neg (by simp [hfail a (Nat.le_refl a) hlt])]
    by_cases hlast : a + 1 = R
    · rw [if_pos hlast]
      have h1 : R - 1 - a = 0 := by omega
      have h2 : R - a = 1 := by omega
      rw [h1, h2]
      rfl
    · rw [if_neg hlast,
        ih (a + 1) (by omega) (by omega) (fun k hk1 hk2 => hfail k (by omega) hk2)]
      have h1 : R - 1 - a = (R - 1 - (a + 1)) + 1 := by omega
      have h2 : R - a = (R - (a + 1)) + 1 := by omega
      rw [h2, h1, delayList_cons]
      rfl

/-- When the first success happens at attempt `j + 1`, the loop stops there:
no failure notification, exactly one submission, and the back-off delays of
the `j - a` failures that preceded it. -/
theorem logFileActivityLoop_first_success (R d : Nat) (submit : Nat → Bool) :
    ∀ n a j, n = R - a → a ≤ j → j < R → submit (j + 1) = true →
      (∀ k, a ≤ k → k < j → submit (k + 1) = false) →
      logFileActivityLoop R d submit a
        = { succeeded := true, failureNotifications := 0,
            delays := (List.range (j - a)).map (fun i => d * (a + 1 + i)),
            submissions := 1, tries := j - a + 1 } := by
  intro n
  induction n with
  | zero =>
    intro a j hn haj hjR _ _
    omega
  | succ m ih =>
    intro a j hn haj hjR hsucc hfail
    have hlt : a < R := by omega
    rw [logFileActivityLoop, dif_pos hlt]
    by_cases hja : j = a
    · subst hja
      rw [if_pos hsucc]
      have h1 : j - j = 0 := by omega
      rw [h1]
      rfl
    · have haj' : a < j := by omega
      rw [if_neg (by simp [hfail a (Nat.le_refl a) haj'])]
      have hlast : ¬ a + 1 = R := by omega
      rw [if_neg hlast,
        ih (a + 1) j (by omega) (by omega) hjR hsucc
          (fun k hk1 hk2 => hfail k (by omega) hk2)]
      have h1 : j - a = (j - (a + 1)) + 1 := by omega
      rw [h1, delayList_cons]
      rfl

/-- The loop performs at most `R - a` tries. -/
theorem logFileActivityLoop_tries_le (R d : Nat) (submit : Nat → Bool) :
    ∀ n a, n = R - a →
      (logFileActivityLoop R d submit a).tries ≤ R - a := by
  intro n
  induction n with
  | zero =>
    intro a hn
    rw [logFileActivityLoop, dif_neg (by omega)]
    exact Nat.zero_le _
  | succ m ih =>
    intro a hn
    have hlt : a < R := by omega
    rw [logFileActivityLoop, dif_pos hlt]
    by_cases hs : submit (a + 1) = true
    · rw [if_pos hs]
      show 1 ≤ R - a
      omega
    · rw [if_neg (by simp [hs])]
      by_cases hlast : a + 1 = R
      · rw [if_pos hlast]
        show 1 ≤ R - a
        omega
      · rw [if_neg hlast]
        have := ih (a + 1) (by omega)
        show (logFileActivityLoop R d submit (a + 1)).tries + 1 ≤ R - a
        omega

/-- Claim C2: with tracking enabled, the submission runs a bounded retry loop of
at most `retryAttempts` tries with linear back-off `retryDelay × k` after the
`k`-th failure; exhaustion yields exactly one operator failure notification
and zero submissions (the record is dropped); an early success yields zero
notifications and exactly one submission.  With tracking disabled the call is
a no-op. -/
theorem C2_bounded_retry_with_backoff (retryAttempts retryDelay : Nat)
    (submit : Nat → Bool) (hpos : 1 ≤ retryAttempts) :
    (logFileActivity false retryAttempts retryDelay submit = none)
    ∧ (∀ r, logFileActivity true retryAttempts retryDelay submit = some r →
        r.tries ≤ retryAttempts)
    ∧ ((∀ k, k < retryAttempts → submit (k + 1) = false) →
        logFileActivity true retryAttempts retryDelay submit
          = some
              { succeeded := false, failureNotifications := 1,
                delays := (List.range (retryAttempts - 1)).map
                    (fun i => retryDelay * (i + 1)),
                submissions := 0, tries := retryAttempts })
    ∧ (∀ j, j < retryAttempts → submit (j + 1) = true →
        (∀ k, k < j → submit (k + 1) = false) →
        logFileActivity true retryAttempts retryDelay submit
          = some
              { succeeded := true, failureNotifications := 0,
                delays := (List.range j).map (fun i => retryDelay * (i + 1)),
                submissions := 1, tries := j + 1 }) := by
  have hmap : ∀ n, (List.range n).map (fun i => retryDelay * (0 + 1 + i))
      = (List.range n).map (fun i => retryDelay * (i + 1)) := by
    intro n
    apply List.map_congr_left
    intro i _
    ring_nf
  have h0 : logFileActivity true retryAttempts retryDelay submit
      = some (logFileActivityLoop retryAttempts retryDelay submit 0) := rfl
  refine ⟨rfl, ?_, ?_, ?_⟩
  · intro r hr
    rw [h0] at hr
    have hr' : logFileActivityLoop retryAttempts retryDelay submit 0 = r :=
      Option.some_injective _ hr
    rw [← hr']
    have h := logFileActivityLoop_tries_le retryAttempts retryDelay submit
      retryAttempts 0 (by omega)
    simpa using h
  · intro hfail
    have h := logFileActivityLoop_all_fail retryAttempts retryDelay submit
      retryAttempts 0 (by omega) (by omega) (fun k _ hk2 => hfail k hk2)
    rw [h0, h, Nat.sub_zero, Nat.sub_zero, hmap (retryAttempts - 1)]
  · intro j hj hsucc hfail
    have h := logFileActivityLoop_first_success retryAttempts retryDelay submit
      retryAttempts 0 j (by omega) (by omega) hj hsucc
      (fun k _ hk2 => hfail k hk2)
    rw [h0, h, Nat.sub_zero, hmap j]

theorem C2_witness :
    (logFileActivity false 3 1000 (fun k => k == 3) = none)
    ∧ (logFileActivity true 3 1000 (fun _ => false)
        = some
            { succeeded := false, failureNotifications := 1,
              delays := (List.range 2).map (fun i => 1000 * (i + 1)),
              submissions := 0, tries := 3 })
    ∧ (logFileActivity true 3 1000 (fun k => k == 3)
        = some
            { succeeded := true, failureNotifications := 0,
              delays := (List.range 2).map (fun i => 1000 * (i + 1)),
              submissions := 1, tries := 3 }) :=
  ⟨(C2_bounded_retry_with_backoff 3 1000 (fun k => k == 3) (by decide)).1,
    (C2_bounded_retry_with_backoff 3 1000 (fun _ => false) (by decide)).2.2.1
      (fun k _ => rfl),
    (C2_bounded_retry_with_backoff 3 1000 (fun k => k == 3) (by decide)).2.2.2
      2 (by decide) (by decide) (fun k hk => by
        interval_cases k <;> rfl)⟩

/-! ### PeriodicSupervisor claim C4 -/

/-- Claim C4: start moves `Stopped → Running`; a successful tick keeps the
supervisor running and resets the failure counter; a failing tick below the
threshold increments the counter and keeps it running; the tick that brings
the counter to `maxRetries` clears the timer, stops the supervisor and raises
the fatal condition; a running state is never entered except by `start`; and
with `maxRetries = 3`, three consecutive failing ticks stop the supervisor
and a fourth tick event changes nothing (the timer is cleared, so the
callback never fires). -/
theorem C4_supervisor_circuit_breaker :
    (∀ m : Nat, ((Scheduler.init m).step .start).isRunning = true
        ∧ ((Scheduler.init m).step .start).intervalSet = true)
    ∧ (∀ s : Scheduler, s.intervalSet = true →
        (s.step .tickSuccess).isRunning = s.isRunning
          ∧ (s.step .tickSuccess).retryCount = 0
          ∧ (s.step .tickSuccess).intervalSet = s.intervalSet)
    ∧ (∀ s : Scheduler, s.intervalSet = true →
        s.retryCount + 1 < s.maxRetries →
        (s.step .tickFail).retryCount = s.retryCount + 1
          ∧ (s.step .tickFail).isRunning = s.isRunning
          ∧ (s.step .tickFail).intervalSet = s.intervalSet
          ∧ (s.step .tickFail).fatalRaised = s.fatalRaised)
    ∧ (∀ s : Scheduler, s.intervalSet = true →
        s.maxRetries ≤ s.retryCount + 1 →
        (s.step .tickFail).isRunning = false
          ∧ (s.step .tickFail).intervalSet = false
          ∧ (s.step .tickFail).fatalRaised = true)
    ∧ (∀ (s : Scheduler) (e : SchedulerEvent), ¬ e = SchedulerEvent.start →
        (s.step e).isRunning = true → s.isRunning = true)
    ∧ (Scheduler.run (Scheduler.init 3) [.start, .tickFail, .tickFail, .tickFail]
        = { intervalSet := false, isRunning := false, retryCount := 0,
            maxRetries := 3, fatalRaised := true })
    ∧ (Scheduler.run (Scheduler.init 3)
          [.start, .tickFail, .tickFail, .tickFail, .tickFail]
        = Scheduler.run (Scheduler.init 3)
            [.start, .tickFail, .tickFail, .tickFail]) := by
  refine ⟨?_, ?_, ?_, ?_, ?_, by decide, by decide⟩
  · intro m
    exact ⟨rfl, rfl⟩
  · intro s hs
    simp [Scheduler.step, hs]
  · intro s hs hlt
    have hnot : ¬ s.maxRetries ≤ s.retryCount + 1 := by omega
    simp [Scheduler.step, Scheduler.handleError, hs, hnot]
  · intro s hs hge
    simp [Scheduler.step, Scheduler.handleError, Scheduler.stop, hs, hge]
  · intro s e hne hrun
    cases e with
    | start => exact absurd rfl hne
    | tickSuccess =>
      by_cases hs : s.intervalSet = true
      · simpa [Scheduler.step, hs] using hrun
      · simpa [Scheduler.step, hs] using hrun
    | tickFail =>
      by_cases hs : s.intervalSet = true
      · by_cases hge : s.maxRetries ≤ s.retryCount + 1
        · simp [Scheduler.step, Scheduler.handleError, Scheduler.stop,
            hs, hge] at hrun
        · simpa [Scheduler.step, Scheduler.handleError, hs, hge] using hrun
      · simpa [Scheduler.step, hs] using hrun

theorem C4_witness :
    (((Scheduler.init 3).step .start).isRunning = true
        ∧ ((Scheduler.init 3).step .start).intervalSet = true)
    ∧ ((((Scheduler.init 3).step .start).step .tickSuccess).isRunning
          = ((Scheduler.init 3).step .start).isRunning
        ∧ (((Scheduler.init 3).step .start).step .tickSuccess).retryCount = 0
        ∧ (((Scheduler.init 3).step .start).step .tickSuccess).intervalSet
          = ((Scheduler.init 3).step .start).intervalSet)
    ∧ ((((Scheduler.init 3).step .start).step .tickFail).retryCount
          = ((Scheduler.init 3).step .start).retryCount + 1
        ∧ (((Scheduler.init 3).step .start).step .tickFail).isRunning
          = ((Scheduler.init 3).step .start).isRunning
        ∧ (((Scheduler.init 3).step .start).step .tickFail).intervalSet
          = ((Scheduler.init 3).step .start).intervalSet
        ∧ (((Scheduler.init 3).step .start).step .tickFail).fatalRaised
          = ((Scheduler.init 3).step .start).fatalRaised)
    ∧ ((Scheduler.step
            { intervalSet := true, isRunning := true, retryCount := 2,
              maxRetries := 3, fatalRaised := false } .tickFail).isRunning
          = false
        ∧ (Scheduler.step
            { intervalSet := true, isRunning := true, retryCount := 2,
              maxRetries := 3, fatalRaised := false } .tickFail).intervalSet
          = false
        ∧ (Scheduler.step
            { intervalSet := true, isRunning := true, retryCount := 2,
              maxRetries := 3, fatalRaised := false } .tickFail).fatalRaised
          = true)
    ∧ (((Scheduler.init 3).step .tickFail).isRunning = true →
        (Scheduler.init 3).isRunning = true) := by
  have h := C4_supervisor_circuit_breaker
  exact ⟨h.1 3,
    h.2.1 ((Scheduler.init 3).step .start) rfl,
    h.2.2.1 ((Scheduler.init 3).step .start) rfl (by decide),
    h.2.2.2.1
      { intervalSet := true, isRunning := true, retryCount := 2,
        maxRetries := 3, fatalRaised := false } rfl (by decide),
    h.2.2.2.2.1 (Scheduler.init 3) .tickFail (by decide)⟩

/-! ### Queue-flush lemmas and claims C1, C6, C9 -/

/-- Both components of the first flush phase at once: the updates are, in
queue order, one rewrite of the merged log per project with a non-empty
buffer; the queue afterwards holds every project with an empty buffer. -/
theorem collectUpdates_eq {α : Type} (read : String → ReadOutcome α)
    (queue : List (String × List α)) :
    collectUpdates read queue
      = ((queue.filter (fun pa => !pa.2.isEmpty)).map
            (fun pa => (logFilePath pa.1,
              logsFromRead (read (logFilePath pa.1)) ++ pa.2)),
          queue.map (fun pa => (pa.1, ([] : List α)))) := by
  induction queue with
  | nil => rfl
  | cons pa rest ih =>
    obtain ⟨project, acts⟩ := pa
    by_cases h : acts.isEmpty
    · have hacts : acts = [] := by
        cases acts with
        | nil => rfl
        | cons a l => simp [List.isEmpty] at h
      subst hacts
      simp [collectUpdates, ih, List.filter_cons]
    · simp [collectUpdates, h, ih, List.filter_cons]

theorem processActivityQueue_run {α : Type} (read : String → ReadOutcome α)
    (writeOk : String → Bool) (queue remote : List (String × List α))
    (hq : queue ≠ []) :
    processActivityQueue read writeOk false queue remote
      = { queue := (collectUpdates read queue).2,
          remote :=
            (executeUpdates writeOk remote (collectUpdates read queue).1).1,
          completed :=
            (executeUpdates writeOk remote (collectUpdates read queue).1).2 } := by
  unfold processActivityQueue
  rw [if_neg]
  simp [List.length_eq_zero, hq]

theorem executeUpdates_get_of_not_mem {α : Type} (writeOk : String → Bool) :
    ∀ (updates remote : List (String × List α)) (path : String),
      ¬ path ∈ updates.map Prod.fst →
      mapGet (executeUpdates writeOk remote updates).1 path
        = mapGet remote path := by
  intro updates
  induction updates with
  | nil =>
    intro remote path _
    rfl
  | cons u rest ih =>
    intro remote path hnot
    obtain ⟨p, c⟩ := u
    simp only [List.map_cons, List.mem_cons, not_or] at hnot
    obtain ⟨hne, hrest⟩ := hnot
    by_cases hw : writeOk p = true
    · rw [show executeUpdates writeOk remote ((p, c) :: rest)
          = executeUpdates writeOk (mapSet remote p c) rest from by
            simp [executeUpdates, hw]]
      rw [ih (mapSet remote p c) path hrest, mapGet_mapSet_ne remote hne c]
    · rw [show executeUpdates writeOk remote ((p, c) :: rest)
          = (remote, false) from by simp [executeUpdates, hw]]

/-- When every write succeeds and the update paths are distinct, each update
lands in the remote store exactly as collected. -/
theorem executeUpdates_allOk_get {α : Type} :
    ∀ (updates remote : List (String × List α)) (path : String)
      (content : List α),
      (path, content) ∈ updates →
      (updates.map Prod.fst).Nodup →
      mapGet (executeUpdates (fun _ => true) remote updates).1 path
        = some content := by
  intro updates
  induction updates with
  | nil =>
    intro remote path content h _
    simp at h
  | cons u rest ih =>
    intro remote path content hmem hnd
    obtain ⟨p, c⟩ := u
    rw [show executeUpdates (fun _ => true) remote ((p, c) :: rest)
        = executeUpdates (fun _ => true) (mapSet remote p c) rest from by
          simp [executeUpdates]]
    simp only [List.map_cons, List.nodup_cons] at hnd
    rcases List.mem_cons.mp hmem with heq | hrest
    · have h1 : path = p := congrArg Prod.fst heq
      have h2 : content = c := congrArg Prod.snd heq
      subst h1
      subst h2
      rw [executeUpdates_get_of_not_mem _ rest (mapSet remote path content)
        path hnd.1]
      exact mapGet_mapSet_self remote path content
    · exact ih (mapSet remote p c) path content hrest hnd.2

/-- A failing write leaves its path untouched in the remote store: either the
loop stops before or at this path, or every executed write targets another
path. -/
theorem executeUpdates_get_of_write_fails {α : Type} (writeOk : String → Bool) :
    ∀ (updates remote : List (String × List α)) (path : String),
      writeOk path = false →
      mapGet (executeUpdates writeOk remote updates).1 path
        = mapGet remote path := by
  intro updates
  induction updates with
  | nil =>
    intro remote path _
    rfl
  | cons u rest ih =>
    intro remote path hw
    obtain ⟨p, c⟩ := u
    by_cases hwp : writeOk p = true
    · have hne : path ≠ p := by
        intro h
        rw [h, hwp] at hw
        simp at hw
      rw [show executeUpdates writeOk remote ((p, c) :: rest)
          = executeUpdates writeOk (mapSet remote p c) rest from by
            simp [executeUpdates, hwp]]
      rw [ih (mapSet remote p c) path hw, mapGet_mapSet_ne remote hne c]
    · rw [show executeUpdates writeOk remote ((p, c) :: rest)
          = (remote, false) from by simp [executeUpdates, hwp]]

theorem logFilePath_injective (a b : String)
    (h : logFilePath a = logFilePath b) : a = b := by
  unfold logFilePath at h
  have hd := congrArg String.data h
  simp only [String.data_append] at hd
  have h1 := List.append_cancel_right hd
  have h2 := List.append_cancel_left h1
  cases a
  cases b
  exact congrArg String.mk h2

theorem mapGet_map_emptied {α : Type} (queue : List (String × List α))
    (P : String) (h : P ∈ mapKeys queue) :
    mapGet (queue.map (fun pa => (pa.1, ([] : List α)))) P = some [] := by
  induction queue with
  | nil => simp [mapKeys] at h
  | cons pa rest ih =>
    by_cases hp : pa.1 = P
    · rw [List.map_cons, mapGet_cons_of_eq (pa.1, ([] : List α)) _ hp]
    · rw [List.map_cons, mapGet_cons_of_ne (pa.1, ([] : List α)) _ hp]
      apply ih
      rcases List.mem_cons.mp (show P ∈ pa.1 :: mapKeys rest from h) with h1 | h1
      · exact absurd h1.symm hp
      · exact h1

/-- The core of C1 and C9: with all writes succeeding, one flush rewrites the
log of each project with buffered records `rs` to the merged array
`logsFromRead (read ...) ++ rs`. -/
theorem flush_writes_merged_log {α : Type} (read : String → ReadOutcome α)
    (queue remote : List (String × List α)) (P : String) (rs : List α)
    (hnd : NodupKeys queue) (hmem : (P, rs) ∈ queue) (hne : rs ≠ []) :
    mapGet (processActivityQueue read (fun _ => true) false queue remote).remote
        (logFilePath P)
      = some (logsFromRead (read (logFilePath P)) ++ rs) := by
  have hq : queue ≠ [] := List.ne_nil_of_mem hmem
  rw [processActivityQueue_run read _ queue remote hq]
  have hfst : (collectUpdates read queue).1
      = (queue.filter (fun pa => !pa.2.isEmpty)).map
          (fun pa => (logFilePath pa.1,
            logsFromRead (read (logFilePath pa.1)) ++ pa.2)) := by
    rw [collectUpdates_eq]
  have hpaths : (((collectUpdates read queue).1).map Prod.fst).Nodup := by
    rw [hfst]
    simp only [List.map_map]
    have hcomp : (Prod.fst ∘ fun pa : String × List α =>
        (logFilePath pa.1, logsFromRead (read (logFilePath pa.1)) ++ pa.2))
        = logFilePath ∘ Prod.fst := rfl
    rw [hcomp, ← List.map_map]
    apply List.Nodup.map (fun a b => logFilePath_injective a b)
    exact List.Nodup.sublist
      (List.Sublist.map Prod.fst (List.filter_sublist queue)) hnd
  have hupd : (logFilePath P, logsFromRead (read (logFilePath P)) ++ rs)
      ∈ (collectUpdates read queue).1 := by
    rw [hfst]
    refine List.mem_map.mpr ⟨(P, rs), List.mem_filter.mpr ⟨hmem, ?_⟩, rfl⟩
    cases rs with
    | nil => exact absurd rfl hne
    | cons a l => rfl
  exact executeUpdates_allOk_get (collectUpdates read queue).1 remote
    (logFilePath P) _ hupd hpaths

/-- Claim C1: when all remote writes succeed, a flush rewrites the remote log
of a project whose buffer holds `rs` (in enqueue order) to the existing
array `L` followed by `rs`; when the remote log is absent the result is
exactly `rs`. -/
theorem C1_flush_appends_in_enqueue_order {α : Type}
    (read : String → ReadOutcome α) (queue remote : List (String × List α))
    (P : String) (rs : List α) (hnd : NodupKeys queue)
    (hmem : (P, rs) ∈ queue) (hne : rs ≠ []) :
    (∀ L, read (logFilePath P) = ReadOutcome.success L →
        mapGet
            (processActivityQueue read (fun _ => true) false queue remote).remote
            (logFilePath P)
          = some (L ++ rs))
    ∧ (read (logFilePath P) = ReadOutcome.absent →
        mapGet
            (processActivityQueue read (fun _ => true) false queue remote).remote
            (logFilePath P)
          = some rs) := by
  have h := flush_writes_merged_log read queue remote P rs hnd hmem hne
  constructor
  · intro L hL
    rw [hL] at h
    exact h
  · intro hab
    rw [hab] at h
    simpa [logsFromRead] using h

theorem C1_witness :
    mapGet (processActivityQueue (fun _ => ReadOutcome.success [1])
        (fun _ => true) false [("P", [2, 3])] []).remote (logFilePath "P")
      = some [1, 2, 3]
    ∧ mapGet (processActivityQueue (fun _ => (ReadOutcome.absent : ReadOutcome Nat))
        (fun _ => true) false [("P", [2, 3])] []).remote (logFilePath "P")
      = some [2, 3] :=
  ⟨(C1_flush_appends_in_enqueue_order (fun _ => ReadOutcome.success [1])
      [("P", [2, 3])] [] "P" [2, 3] (by decide) (by decide) (by decide)).1
      [1] rfl,
    (C1_flush_appends_in_enqueue_order
      (fun _ => (ReadOutcome.absent : ReadOutcome Nat))
      [("P", [2, 3])] [] "P" [2, 3] (by decide) (by decide) (by decide)).2 rfl⟩

/-- Claim C6: every flush empties all project buffers during the first phase,
before any remote write is confirmed; a failed write is not retried and the
snapshotted records are not re-enqueued: the buffer stays empty and the
remote log keeps its prior content, so the records are lost. -/
theorem C6_flush_discards_on_write_failure {α : Type}
    (read : String → ReadOutcome α) (writeOk : String → Bool)
    (queue remote : List (String × List α)) (hq : queue ≠ []) :
    ((processActivityQueue read writeOk false queue remote).queue
        = queue.map (fun pa => (pa.1, ([] : List α))))
    ∧ (∀ pa ∈ (processActivityQueue read writeOk false queue remote).queue,
        pa.2 = ([] : List α))
    ∧ (∀ P, P ∈ mapKeys queue →
        mapGet (processActivityQueue read writeOk false queue remote).queue P
          = some ([] : List α))
    ∧ (∀ P, writeOk (logFilePath P) = false →
        mapGet
            (processActivityQueue read writeOk false queue remote).remote
            (logFilePath P)
          = mapGet remote (logFilePath P)) := by
  rw [processActivityQueue_run read writeOk queue remote hq]
  have hsnd : (collectUpdates read queue).2
      = queue.map (fun pa => (pa.1, ([] : List α))) := by
    rw [collectUpdates_eq]
  refine ⟨hsnd, ?_, ?_, ?_⟩
  · intro pa hpa
    have hpa' : pa ∈ (collectUpdates read queue).2 := hpa
    rw [hsnd] at hpa'
    obtain ⟨x, _, rfl⟩ := List.mem_map.mp hpa'
    rfl
  · intro P hP
    show mapGet (collectUpdates read queue).2 P = some []
    rw [hsnd]
    exact mapGet_map_emptied queue P hP
  · intro P hP
    show mapGet (executeUpdates writeOk remote (collectUpdates read queue).1).1
        (logFilePath P) = mapGet remote (logFilePath P)
    exact executeUpdates_get_of_write_fails writeOk
      (collectUpdates read queue).1 remote (logFilePath P) hP

theorem C6_witness :
    ((processActivityQueue (fun _ => (ReadOutcome.absent : ReadOutcome Nat))
        (fun _ => false) false [("P", [1])]
        [(logFilePath "P", [9])]).queue = [("P", [])])
    ∧ (mapGet (processActivityQueue
          (fun _ => (ReadOutcome.absent : ReadOutcome Nat))
          (fun _ => false) false [("P", [1])] [(logFilePath "P", [9])]).queue "P"
        = some [])
    ∧ (mapGet (processActivityQueue
          (fun _ => (ReadOutcome.absent : ReadOutcome Nat))
          (fun _ => false) false [("P", [1])] [(logFilePath "P", [9])]).remote
          (logFilePath "P")
        = mapGet [(logFilePath "P", [9])] (logFilePath "P")) := by
  have h := C6_flush_discards_on_write_failure
    (fun _ => (ReadOutcome.absent : ReadOutcome Nat)) (fun _ => false)
    [("P", [1])] [(logFilePath "P", [9])] (by decide)
  exact ⟨h.1, h.2.2.1 "P" (by decide), h.2.2.2 "P" rfl⟩

/-- Claim C9: when reading a project's existing remote log fails with any error
other than the 404-equivalent (modelled by `ReadOutcome.failure`, which is
where `getFileContent`'s thrown errors land), the flush proceeds as if the
log were empty: it writes exactly the newly buffered records, replacing
whatever the remote log previously held. -/
theorem C9_read_error_treated_as_empty {α : Type}
    (read : String → ReadOutcome α) (queue remote : List (String × List α))
    (P : String) (rs : List α) (hnd : NodupKeys queue)
    (hmem : (P, rs) ∈ queue) (hne : rs ≠ [])
    (hfail : read (logFilePath P) = ReadOutcome.failure) :
    (mapGet
        (processActivityQueue read (fun _ => true) false queue remote).remote
        (logFilePath P)
      = some rs)
    ∧ (∀ parse : String → Option (List α),
        readOutcomeOfContent parse (getFileContent GetContentOutcome.otherError)
            = ReadOutcome.failure
          ∧ readOutcomeOfContent parse (getFileContent GetContentOutcome.directory)
            = ReadOutcome.failure) := by
  have h := flush_writes_merged_log read queue remote P rs hnd hmem hne
  rw [hfail] at h
  exact ⟨by simpa [logsFromRead] using h, fun parse => ⟨rfl, rfl⟩⟩

theorem C9_witness :
    mapGet (processActivityQueue (fun _ => (ReadOutcome.failure : ReadOutcome Nat))
        (fun _ => true) false [("P", [2, 3])]
        [(logFilePath "P", [9])]).remote (logFilePath "P")
      = some [2, 3] :=
  (C9_read_error_treated_as_empty
    (fun _ => (ReadOutcome.failure : ReadOutcome Nat)) [("P", [2, 3])]
    [(logFilePath "P", [9])] "P" [2, 3] (by decide) (by decide) (by decide)
    rfl).1

/-! ### RemoteSyncClient claim C8 -/

/-- Claim C8: each write `updateFile` issues carries the concurrency token it
just read for the resource: the file's `sha` when the resource exists, and
no token when the read reported the resource absent (the creation case). -/
theorem C8_write_token_discipline (g : GetContentOutcome) :
    (∀ sha content, g = GetContentOutcome.file sha content →
        updateFile true g = UpdateFileResult.wrote (some sha))
    ∧ (g = GetContentOutcome.notFound →
        updateFile true g = UpdateFileResult.wrote none)
    ∧ (∀ s : Option String, updateFile true g = UpdateFileResult.wrote s →
        (∀ sha content, g = GetContentOutcome.file sha content → s = some sha)
          ∧ (g = GetContentOutcome.notFound → s = none)) := by
  refine ⟨?_, ?_, ?_⟩
  · intro sha content hfile
    subst hfile
    rfl
  · intro hnf
    subst hnf
    rfl
  · intro s hs
    constructor
    · intro sha content hfile
      subst hfile
      cases hs
      rfl
    · intro hnf
      subst hnf
      cases hs
      rfl

theorem C8_witness :
    (updateFile true (GetContentOutcome.file "abc123" "old content")
        = UpdateFileResult.wrote (some "abc123"))
    ∧ (updateFile true GetContentOutcome.notFound
        = UpdateFileResult.wrote none) :=
  ⟨(C8_write_token_discipline (GetContentOutcome.file "abc123" "old content")).1
      "abc123" "old content" rfl,
    (C8_write_token_discipline GetContentOutcome.notFound).2.1 rfl⟩

example : findFunctionNames "function a()\x7b\x7d" = ["a"] := by decide

example :
    detectFunctionChanges "function a()\x7b\x7d"
        "function a()\x7b\x7d\nfunction b()\x7b\x7d"
      = { added := ["b"], modified := [], removed := [] } := by decide

example :
    (getLineChanges "function a()\x7b\x7d"
        "function a()\x7b\x7d\nfunction b()\x7b\x7d").addedLines = 1 := by decide

end ActivityMonitor
